import Mathlib

/-!
Verification development for the opencode-slack bridge.

The definitions below are a shallow embedding of the repository sources:
  - `src/store.js`    — the in-memory conversation store (`Thread`, `upsertThread`, ...)
  - `src/opencode.js` / the runner module — argument construction (`buildArgs`),
    the stdout line parser (`handleData`), and the close handler (`closeFlush`)
  - the formatter module — the event accumulator (`push`) and its Slack block
    rendering (`blocksOf`, `splitAtBoundary`, ...)
  - `src/app.js`      — the per-thread busy/queue orchestration (`runWithQueueModel`,
    `drainLoop`) and the run-completion handler (`doneUpdate`)

JavaScript strings are Lean `String`s (the boundary splitter works on `List Char`,
the character-list view of the same data).  JavaScript `undefined`/`null` fields
are `Option`s; JS truthiness on strings (empty string is falsy) is `jsTruthy`.
The external `JSON.parse` is an abstract fallible parser `String → Option Event`:
a `try \x7b JSON.parse \x7d catch` is exactly an `Option`-returning call.
-/

namespace OCS

/-- JS truthiness of a nullable string: `undefined`, `null` and `""` are falsy. -/
def jsTruthy : Option String → Bool
  | some s => s ≠ ""
  | none => false

/-- JS `a || b` on strings: returns `b` when `a` is empty (falsy). -/
def jsOrStr (a b : String) : String :=
  if a = "" then b else a

/-- JS `str.trim()`: strip leading and trailing whitespace.  (Stated over
the character list so that it is structurally recursive and evaluates in
the kernel.) -/
def jsTrim (s : String) : String :=
  String.mk (((s.toList.dropWhile Char.isWhitespace).reverse.dropWhile
    Char.isWhitespace).reverse)

-- ── Conversation store (src/store.js) ─────────────────────────────────────

/-- One per-thread record, mirroring the object literal defaults in
`upsertThread` of `src/store.js`. -/
structure Thread where
  sessionID : Option String := none
  directory : Option String := none
  model : Option String := none
  agent : Option String := none
  busy : Bool := false
  queue : List String := []
  pendingMessage : Option String := none
  pendingCommand : Option String := none
  pickerTs : Option String := none
  browsePath : Option String := none
  deriving Repr, DecidableEq

/-- The defaults used by `upsertThread` when a thread is absent. -/
def defaultThread : Thread := {}

/-- A partial patch, as passed to `upsertThread`: a field that is `none`
is absent from the JS patch object, `some v` sets the field to `v`. -/
structure ThreadPatch where
  sessionID : Option (Option String) := none
  directory : Option (Option String) := none
  model : Option (Option String) := none
  agent : Option (Option String) := none
  busy : Option Bool := none
  queue : Option (List String) := none
  pendingMessage : Option (Option String) := none
  pendingCommand : Option (Option String) := none
  pickerTs : Option (Option String) := none
  browsePath : Option (Option String) := none

/-- JS object spread `\x7b ...existing, ...patch \x7d`: every field present in
the patch replaces the existing value, every other field is kept. -/
def applyPatch (t : Thread) (p : ThreadPatch) : Thread where
  sessionID := p.sessionID.getD t.sessionID
  directory := p.directory.getD t.directory
  model := p.model.getD t.model
  agent := p.agent.getD t.agent
  busy := p.busy.getD t.busy
  queue := p.queue.getD t.queue
  pendingMessage := p.pendingMessage.getD t.pendingMessage
  pendingCommand := p.pendingCommand.getD t.pendingCommand
  pickerTs := p.pickerTs.getD t.pickerTs
  browsePath := p.browsePath.getD t.browsePath

/-- The module-level `threads` map, as a function from thread id. -/
def Store : Type := String → Option Thread

/-- The empty map (process start). -/
def emptyStore : Store := fun _ => none

/-- Embeds `getThread` of `src/store.js`: `threads.get(threadTs) ?? null`. -/
def getThread (s : Store) (threadTs : String) : Option Thread :=
  s threadTs

/-- Embeds `upsertThread` of `src/store.js`: read the existing record (or the
defaults), spread the patch over it, store and return the result. -/
def upsertThread (s : Store) (threadTs : String) (patch : ThreadPatch) :
    Thread × Store :=
  let existing := (s threadTs).getD defaultThread
  let updated := applyPatch existing patch
  (updated, fun k => if k = threadTs then some updated else s k)

/-- Embeds `deleteThread` of `src/store.js`. -/
def deleteThread (s : Store) (threadTs : String) : Store :=
  fun k => if k = threadTs then none else s k

@[simp] theorem getThread_upsert_self (s : Store) (ts : String) (p : ThreadPatch) :
    getThread (upsertThread s ts p).2 ts
      = some (applyPatch ((getThread s ts).getD defaultThread) p) := by
  simp [getThread, upsertThread]

@[simp] theorem getThread_upsert_other (s : Store) (ts ts' : String)
    (p : ThreadPatch) (h : ts' ≠ ts) :
    getThread (upsertThread s ts p).2 ts' = getThread s ts' := by
  simp [getThread, upsertThread, h]

-- ── Run events (shared between the runner and the formatter) ──────────────

/-- The `tokens.cache` record of a step-finish payload. -/
structure Cache where
  read : Nat := 0
  write : Nat := 0
  deriving Repr, DecidableEq

/-- The `part.tokens` record of a step-finish payload. -/
structure Tokens where
  total : Nat := 0
  input : Nat := 0
  output : Nat := 0
  reasoning : Nat := 0
  cache : Option Cache := none
  deriving Repr, DecidableEq

/-- The structured input of a tool call (`state.input`).  Only the fields the
formatter reads are named; `include` is a Lean keyword, so the grep filter
field is called `includePat` here. -/
structure ToolInput where
  filePath : Option String := none
  content : Option String := none
  oldString : Option String := none
  newString : Option String := none
  command : Option String := none
  pattern : Option String := none
  includePat : Option String := none
  deriving Repr, DecidableEq

/-- The `part.state` record of a tool-use payload. -/
structure ToolState where
  title : Option String := none
  status : Option String := none
  input : Option ToolInput := none
  output : Option String := none
  deriving Repr, DecidableEq

/-- The `part` payload of a run event; each field is optional because the
shape depends on the event type. -/
structure Part where
  text : Option String := none
  thinking : Option String := none
  tokens : Option Tokens := none
  cost : Option Rat := none
  reason : Option String := none
  tool : Option String := none
  callID : Option String := none
  state : Option ToolState := none
  deriving Repr, DecidableEq

/-- One parsed JSON line of the external process: `\x7b type, sessionID, part \x7d`. -/
structure Event where
  type : String
  sessionID : Option String := none
  part : Option Part := none
  deriving Repr, DecidableEq

-- ── Process runner: argument construction (runOpencode) ───────────────────

/-- The `RunOptions` accepted by `runOpencode`. -/
structure RunOptions where
  message : String
  sessionID : Option String := none
  directory : Option String := none
  model : Option String := none
  agent : Option String := none
  command : Option String := none
  files : Option (List String) := none
  deriving Repr, DecidableEq

/-- The hard-coded default model of the runner module. -/
def DEFAULT_MODEL : String := "anthropic/claude-opus-4-6"

/-- Embeds `if (v) args.push(flag, v)`: a flag plus value appended only when the
value is present and truthy. -/
def optFlag (flag : String) (v : Option String) : List String :=
  match v with
  | some s => if s = "" then [] else [flag, s]
  | none => []

/-- The model arguments: `if (opts.model) push("-m", opts.model) else
push("-m", DEFAULT_MODEL)` — a `-m` flag is always appended. -/
def modelArgs (o : RunOptions) : List String :=
  match o.model with
  | some m => if m = "" then ["-m", DEFAULT_MODEL] else ["-m", m]
  | none => ["-m", DEFAULT_MODEL]

/-- Embeds `if (opts.files?.length) for (f of files) push("-f", f)`. -/
def filesArgs (o : RunOptions) : List String :=
  match o.files with
  | some fs => if fs = [] then [] else fs.flatMap (fun f => ["-f", f])
  | none => []

/-- The argument list built by `runOpencode` (the runner variant with agent
and command flags, which is the one `app.js` calls): fixed streaming flags,
the conditional flags in source order, then the message as the final
positional argument. -/
def buildArgs (o : RunOptions) : List String :=
  ["run", "--format", "json", "--thinking"]
    ++ optFlag "--session" o.sessionID
    ++ modelArgs o
    ++ optFlag "--agent" o.agent
    ++ optFlag "--command" o.command
    ++ optFlag "--dir" o.directory
    ++ filesArgs o
    ++ [o.message]

-- ── Process runner: stdout line parsing ───────────────────────────────────

/-- The runner state carried across stdout `data` callbacks: the unfinished
trailing line and the last session id seen (`lastSessionID`). -/
structure RunnerState where
  buffer : String := ""
  lastSessionID : Option String := none
  deriving Repr, DecidableEq

/-- The per-line body of the stdout handler: trim, skip empty lines, attempt
a parse, on success record a truthy `sessionID` and emit the event, on
failure silently discard the line.  Returns the final session id and the
emitted events in order. -/
def procLines (parse : String → Option Event) :
    Option String → List String → Option String × List Event
  | sid, [] => (sid, [])
  | sid, l :: ls =>
    let t := jsTrim l
    if t = "" then procLines parse sid ls
    else
      match parse t with
      | some ev =>
        let sid' := if jsTruthy ev.sessionID then ev.sessionID else sid
        let rest := procLines parse sid' ls
        (rest.1, ev :: rest.2)
      | none => procLines parse sid ls

/-- The stdout `data` handler: append the chunk to the buffer, split on
newlines, keep the last (possibly incomplete) piece as the new buffer, and
process every complete line. -/
def handleData (parse : String → Option Event) (st : RunnerState)
    (chunk : String) : RunnerState × List Event :=
  let buf := st.buffer ++ chunk
  let lines := buf.splitOn "\n"
  let newBuf := lines.getLast?.getD ""
  let complete := lines.dropLast
  let r := procLines parse st.lastSessionID complete
  (⟨newBuf, r.1⟩, r.2)

/-- The `close` handler flush: if the trailing buffer trims to something
non-empty, attempt one final parse and record a truthy session id; the
result is the session id reported on the terminal `done` signal. -/
def closeFlush (parse : String → Option Event) (st : RunnerState) :
    Option String :=
  if jsTrim st.buffer = "" then st.lastSessionID
  else
    match parse (jsTrim st.buffer) with
    | some ev => if jsTruthy ev.sessionID then ev.sessionID else st.lastSessionID
    | none => st.lastSessionID

/-- Embeds `lastSessionID = opts.sessionID || null`: the initial session id, with
an empty string normalised to `null`. -/
def initSid (o : Option String) : Option String :=
  match o with
  | some s => if s = "" then none else some s
  | none => none

/-- Runs the whole stdout stream of one process invocation through the
data handler, chunk by chunk. -/
def runnerRun (parse : String → Option Event) (sid0 : Option String)
    (chunks : List String) : RunnerState :=
  chunks.foldl (fun st c => (handleData parse st c).1) ⟨"", initSid sid0⟩

/-- The session id carried by the terminal `done` signal of a run fed by
`chunks`, starting from request option `sid0`. -/
def reportedSid (parse : String → Option Event) (sid0 : Option String)
    (chunks : List String) : Option String :=
  closeFlush parse (runnerRun parse sid0 chunks)

-- ── Event accumulator (formatter module) ──────────────────────────────────

/-- Slack limits of the formatter module. -/
def MAX_TEXT_LEN : Nat := 2900

/-- Maximum number of Slack blocks before the overflow notice. -/
def MAX_BLOCKS : Nat := 49

/-- The tracked usage summary (`tokenInfo`). -/
structure TokenInfo where
  total : Nat
  input : Nat
  output : Nat
  reasoning : Nat
  cacheRead : Nat
  cacheWrite : Nat
  cost : Rat
  deriving Repr, DecidableEq

/-- The normalised tool record produced by `formatTool`. -/
structure ToolData where
  tool : String
  title : String
  status : String
  input : ToolInput
  output : String
  deriving Repr, DecidableEq

/-- One finalized accumulator segment (an element of `parts`). -/
inductive Seg where
  | text (data : String)
  | tool (data : ToolData)
  | thinking (data : String)
  deriving Repr, DecidableEq

/-- The mutable state closed over by `createAccumulator`. -/
structure AccState where
  parts : List Seg := []
  currentText : String := ""
  finished : Bool := false
  tokenInfo : Option TokenInfo := none
  stepCount : Nat := 0
  deriving Repr, DecidableEq

/-- A fresh accumulator (`createAccumulator()`). -/
def initAcc : AccState := {}

/-- Embeds `formatTool(part)`: tool name defaulting to "unknown", title falling
back (by JS `||`) to the call id, status defaulting to "running", input
defaulting to the empty object and output to the empty string. -/
def formatTool (p : Option Part) : ToolData :=
  let state := (p.bind Part.state).getD {}
  { tool := (p.bind Part.tool).getD "unknown"
    title := jsOrStr (state.title.getD "") ((p.bind Part.callID).getD "")
    status := state.status.getD "running"
    input := state.input.getD {}
    output := state.output.getD "" }

/-- The usage summary recorded on a step-finish event carrying `tokens`. -/
def mkTokenInfo (p : Part) (tk : Tokens) : TokenInfo where
  total := tk.total
  input := tk.input
  output := tk.output
  reasoning := tk.reasoning
  cacheRead := (tk.cache.map Cache.read).getD 0
  cacheWrite := (tk.cache.map Cache.write).getD 0
  cost := p.cost.getD 0

/-- Flush the in-progress text into a finalized text segment, when
non-empty (the `if (currentText) \x7b parts.push...; currentText = "" \x7d`
pattern). -/
def flushText (s : AccState) : AccState :=
  if s.currentText = "" then s
  else { s with parts := s.parts ++ [Seg.text s.currentText], currentText := "" }

/-- The step-finish branch of `push`: a `tokens` payload replaces the whole
usage summary, a reason of "stop" marks the run finished. -/
def pushStepFinish (s : AccState) (p? : Option Part) : AccState :=
  match p? with
  | some p =>
    let s1 :=
      match p.tokens with
      | some tk => { s with tokenInfo := some (mkTokenInfo p tk) }
      | none => s
    if p.reason = some "stop" then { s1 with finished := true } else s1
  | none => s

/-- Embeds `accumulator.push(event)`: the switch over the event type.  An event of
any other type falls through the switch and leaves the state unchanged. -/
def push (s : AccState) (e : Event) : AccState :=
  if e.type = "step_start" then
    let s1 := { s with stepCount := s.stepCount + 1 }
    if s1.stepCount > 1 then flushText s1 else s1
  else if e.type = "text" then
    { s with currentText := s.currentText ++ ((e.part.bind Part.text).getD "") }
  else if e.type = "tool_use" then
    let s1 := flushText s
    { s1 with parts := s1.parts ++ [Seg.tool (formatTool e.part)] }
  else if e.type = "step_finish" then
    pushStepFinish s e.part
  else if e.type = "thinking" then
    let s1 := flushText s
    { s1 with parts := s1.parts ++
        [Seg.thinking (((e.part.bind Part.thinking).orElse
          (fun _ => e.part.bind Part.text)).getD "")] }
  else s

-- ── Boundary splitting (splitAtBoundary) ──────────────────────────────────

/-- JS `str.lastIndexOf(c, from)` over the character list: the greatest
index `≤ from` holding `c`, or `-1`. -/
def jsLastIndexOf (l : List Char) (c : Char) (fr : Nat) : Int :=
  match ((List.range l.length).filter
      (fun i => decide (i ≤ fr) && (l.get? i == some c))).getLast? with
  | some i => (i : Int)
  | none => -1

/-- The split-point selection of one loop iteration: the last newline at or
before `max`, else (when that index is `≤ 0`) the last space, else a hard
cut at `max`. -/
def pickSplit (rem : List Char) (max : Nat) : Nat :=
  let n := jsLastIndexOf rem '\n' max
  let s := if n ≤ 0 then jsLastIndexOf rem ' ' max else n
  if s ≤ 0 then max else s.toNat

/-- Embeds the `remaining.slice(splitAt).replace` step: drop one leading newline. -/
def stripLeadNL : List Char → List Char
  | [] => []
  | c :: cs => if c = '\n' then cs else c :: cs

/-- The `while (remaining.length > 0)` loop of `splitAtBoundary`, with a
fuel parameter standing for the loop bound: with `max ≥ 1` every iteration
consumes at least one character, so fuel `remaining.length` is exact (the
JS loop would not terminate for `max = 0`, which no call site uses). -/
def splitLoop : Nat → List Char → Nat → List (List Char)
  | 0, _, _ => []
  | fuel + 1, rem, max =>
    if rem.length = 0 then []
    else if rem.length ≤ max then [rem]
    else
      let sp := pickSplit rem max
      rem.take sp :: splitLoop fuel (stripLeadNL (rem.drop sp)) max

/-- Embeds `splitAtBoundary(str, max)`: a short string is returned whole, a long
one is cut by the loop. -/
def splitAtBoundary (str : List Char) (max : Nat) : List (List Char) :=
  if str.length ≤ max then [str] else splitLoop str.length str max

/-- String-level wrapper of `splitAtBoundary` used by the renderers. -/
def splitAtBoundaryS (s : String) (max : Nat) : List String :=
  (splitAtBoundary s.toList max).map (fun l => String.mk l)

-- ── Rendering (blocks) ────────────────────────────────────────────────────

/-- One Slack Block Kit block, reduced to the three shapes the formatter
emits: a markdown section, a context line, a divider. -/
inductive Block where
  | section (text : String)
  | context (text : String)
  | divider
  deriving Repr, DecidableEq

/-- Embeds `markdownSection(text)`: empty or absent text is replaced by a single
space (`text || " "`). -/
def markdownSection (text : String) : Block :=
  Block.section (if text = "" then " " else text)

/-- Embeds `contextBlock(text)`. -/
def contextBlock (text : String) : Block :=
  Block.context text

/-- Embeds `fmtNum`: abbreviate at thousand/million scale with one decimal.  The
JS float `toFixed(1)` is modelled as round-half-up integer arithmetic. -/
def fmtNum (n : Nat) : String :=
  if n ≥ 1000000 then
    let t := (n + 50000) / 100000
    toString (t / 10) ++ "." ++ toString (t % 10) ++ "M"
  else if n ≥ 1000 then
    let t := (n + 50) / 100
    toString (t / 10) ++ "." ++ toString (t % 10) ++ "k"
  else toString n

/-- Zero-padding for the fractional part of `toFixed4`. -/
def pad4 (n : Nat) : String :=
  if n < 10 then "000" ++ toString n
  else if n < 100 then "00" ++ toString n
  else if n < 1000 then "0" ++ toString n
  else toString n

/-- The JS `cost.toFixed(4)`, modelled as round-half-up on rationals. -/
def toFixed4 (q : Rat) : String :=
  let s := ⌊q * 10000 + (1 : Rat) / 2⌋
  toString (s / 10000) ++ "." ++ pad4 ((s % 10000).toNat)

/-- The usage/cost status line rendered once a run is finished. -/
def usageLine (t : TokenInfo) : String :=
  let cost := if t.cost > 0 then "  |  $" ++ toFixed4 t.cost else ""
  let cached := if t.cacheRead > 0 then "  |  cache: " ++ fmtNum t.cacheRead ++ " read" else ""
  "tokens: " ++ fmtNum t.input ++ " in / " ++ fmtNum t.output ++ " out" ++ cached ++ cost

/-- Embeds `splitTextBlocks(text)`: each chunk becomes one markdown section. -/
def splitTextBlocks (text : String) : List Block :=
  if text = "" then []
  else (splitAtBoundaryS text MAX_TEXT_LEN).map markdownSection

/-- Embeds `splitThinkingBlocks(text)`: smaller chunks, quoted line by line. -/
def splitThinkingBlocks (text : String) : List Block :=
  if text = "" then []
  else (splitAtBoundaryS text 1400).map (fun chunk =>
    markdownSection (">_*Thinking:*_\n>" ++
      String.intercalate "\n>" (chunk.splitOn "\n")))

/-- Embeds `formatToolInput(tool, input)`: the per-tool condensed input string.
The default branch is `JSON.stringify(input, null, 2)`, modelled by
`stringifyInput`. -/
def jsonField (k : String) (v : Option String) : List String :=
  match v with
  | some s => ["  \"" ++ k ++ "\": \"" ++ s ++ "\""]
  | none => []

/-- Models `JSON.stringify(input, null, 2)` over the named input fields. -/
def stringifyInput (i : ToolInput) : String :=
  let fs := jsonField "filePath" i.filePath ++ jsonField "content" i.content
    ++ jsonField "oldString" i.oldString ++ jsonField "newString" i.newString
    ++ jsonField "command" i.command ++ jsonField "pattern" i.pattern
    ++ jsonField "include" i.includePat
  if fs = [] then "\x7b\x7d"
  else "\x7b\n" ++ String.intercalate ",\n" fs ++ "\n\x7d"

def formatToolInput (tool : String) (input : ToolInput) : String :=
  if tool = "write" then
    "write → " ++ input.filePath.getD "?" ++ "\n" ++ input.content.getD ""
  else if tool = "edit" then
    "edit → " ++ input.filePath.getD "?" ++ "\n- " ++ input.oldString.getD ""
      ++ "\n+ " ++ input.newString.getD ""
  else if tool = "read" then
    "read → " ++ input.filePath.getD "?"
  else if tool = "bash" then
    "$ " ++ input.command.getD "?"
  else if tool = "glob" then
    "glob → " ++ input.pattern.getD "?"
  else if tool = "grep" then
    "grep → " ++ input.pattern.getD "?" ++ " " ++
      (match input.includePat with
       | some inc => if inc = "" then "" else "(" ++ inc ++ ")"
       | none => "")
  else if tool = "todowrite" then "update todos"
  else stringifyInput input

/-- Embeds `toolBlocks`: header section, input chunks, output chunks when
completed, trailing divider. -/
def toolBlocks (d : ToolData) : List Block :=
  let icon := if d.status = "completed" then ":white_check_mark:"
              else ":hourglass_flowing_sand:"
  let header := icon ++ "  *" ++ d.tool ++ "*" ++
    (if d.title = "" then "" else "  `" ++ d.title ++ "`")
  let inputStr := formatToolInput d.tool d.input
  let inputBlocks :=
    if inputStr = "" then []
    else (splitAtBoundaryS inputStr 1400).map (fun chunk =>
      markdownSection ("```\n" ++ chunk ++ "\n```"))
  let outputBlocks :=
    if d.status = "completed" ∧ d.output ≠ "" then
      (splitAtBoundaryS d.output 1400).map (fun chunk =>
        markdownSection ("```\n" ++ chunk ++ "\n```"))
    else []
  markdownSection header :: inputBlocks ++ outputBlocks ++ [Block.divider]

/-- The blocks of one finalized segment. -/
def segBlocks : Seg → List Block
  | Seg.text t => splitTextBlocks t
  | Seg.tool d => toolBlocks d
  | Seg.thinking t => splitThinkingBlocks t

/-- The `for (const p of parts)` loop of `blocks()`: stop appending once
the block count reaches `MAX_BLOCKS`. -/
def renderParts : List Seg → List Block → List Block
  | [], acc => acc
  | p :: ps, acc =>
    if MAX_BLOCKS ≤ acc.length then acc
    else renderParts ps (acc ++ segBlocks p)

/-- Append the current streaming (unflushed) text, when non-empty and
below the block limit. -/
def withStream (s : AccState) (bs : List Block) : List Block :=
  if s.currentText ≠ "" ∧ bs.length < MAX_BLOCKS then
    bs ++ splitTextBlocks s.currentText
  else bs

/-- Append the status indicator: the in-progress marker while unfinished,
else the usage line when usage exists. -/
def withStatus (s : AccState) (bs : List Block) : List Block :=
  if bs.length < MAX_BLOCKS then
    if s.finished = false then bs ++ [contextBlock "Thinking..."]
    else
      match s.tokenInfo with
      | some t => bs ++ [contextBlock (usageLine t)]
      | none => bs
  else bs

/-- The overflow notice: truncate to `MAX_BLOCKS` and append the notice. -/
def withOverflow (bs : List Block) : List Block :=
  if MAX_BLOCKS ≤ bs.length then
    bs.take MAX_BLOCKS ++ [contextBlock "(output truncated — too many blocks for Slack)"]
  else bs

/-- Embeds the final guard `if (blocks.length === 0) push(contextBlock("Processing..."))`. -/
def ensureNonempty (bs : List Block) : List Block :=
  if bs = [] then [contextBlock "Processing..."] else bs

/-- Embeds `accumulator.blocks()`: the full render of the current state. -/
def blocksOf (s : AccState) : List Block :=
  ensureNonempty (withOverflow (withStatus s (withStream s (renderParts s.parts []))))

-- ── Run orchestrator (src/app.js) ─────────────────────────────────────────

/-- Reads the queue, `getThread(threadTs)?.queue ?? []`. -/
def threadQueue (s : Store) (ts : String) : List String :=
  ((getThread s ts).map Thread.queue).getD []

/-- Reads the busy flag, `getThread(threadTs)?.busy`, with an absent thread read as not busy
(JS `thread?.busy` is undefined, hence falsy). -/
def isBusy (s : Store) (ts : String) : Bool :=
  ((getThread s ts).map Thread.busy).getD false

/-- The `done` handler effect on the store (`processMessage`, app.js):
`if (sessionID) upsertThread(threadTs, \x7b sessionID \x7d)` — a truthy reported
handle is persisted, a null (or empty) one leaves the store untouched. -/
def doneUpdate (s : Store) (ts : String) (sid : Option String) : Store :=
  match sid with
  | some x => if x = "" then s else (upsertThread s ts { sessionID := some (some x) }).2
  | none => s

/-- The queue-drain loop of `runWithQueue`: re-read the queue, shift the
head, store the tail, run the head (`runOne` abstracts one `processMessage`
call), repeat.  The fuel stands for the loop bound; the returned list is
the order in which queued messages were run. -/
def drainLoop (runOne : Store → String → Store) (ts : String) :
    Nat → Store → Store × List String
  | 0, s => (s, [])
  | fuel + 1, s =>
    match threadQueue s ts with
    | [] => (s, [])
    | next :: rest =>
      let s1 := (upsertThread s ts { queue := some rest }).2
      let s2 := runOne s1 next
      let r := drainLoop runOne ts fuel s2
      (r.1, next :: r.2)

/-- The non-busy path of `runWithQueue`: set busy, run the message, drain
the queue, clear busy.  The trace lists every message run, in order. -/
def runStart (runOne : Store → String → Store) (ts msg : String)
    (fuel : Nat) (store : Store) : Store × List String :=
  let s1 := (upsertThread store ts { busy := some true }).2
  let s2 := runOne s1 msg
  let r := drainLoop runOne ts fuel s2
  ((upsertThread r.1 ts { busy := some false }).2, msg :: r.2)

/-- Embeds `runWithQueue` of app.js: a request arriving while the thread is busy
is appended to the queue and nothing runs now; otherwise the run-and-drain
path executes. -/
def runWithQueueModel (runOne : Store → String → Store) (ts msg : String)
    (fuel : Nat) (store : Store) : Store × List String :=
  match getThread store ts with
  | some th =>
    if th.busy then
      ((upsertThread store ts { queue := some (th.queue ++ [msg]) }).2, [])
    else runStart runOne ts msg fuel store
  | none => runStart runOne ts msg fuel store

-- ── Claim C8: store upsert/get contract ───────────────────────────────────

/-- C8: `upsert(id, patch)` creates the context from the defaults when the
id is absent, replaces exactly the fields present in the patch (every
field not in the patch is kept), stores the merged context, returns it,
and a subsequent `get(id)` returns the same merged context; other ids are
untouched.  The operation is a total function (it never fails). -/
theorem C8_upsert_merges_and_get_roundtrip (s : Store) (id : String) (p : ThreadPatch) :
    (upsertThread s id p).1 = applyPatch ((getThread s id).getD defaultThread) p ∧
    getThread (upsertThread s id p).2 id
      = some (applyPatch ((getThread s id).getD defaultThread) p) ∧
    (getThread s id = none →
      getThread (upsertThread s id p).2 id = some (applyPatch defaultThread p)) ∧
    (∀ j, j ≠ id → getThread (upsertThread s id p).2 j = getThread s j) ∧
    (applyPatch ((getThread s id).getD defaultThread) p).sessionID
      = p.sessionID.getD ((getThread s id).getD defaultThread).sessionID ∧
    (applyPatch ((getThread s id).getD defaultThread) p).directory
      = p.directory.getD ((getThread s id).getD defaultThread).directory ∧
    (applyPatch ((getThread s id).getD defaultThread) p).model
      = p.model.getD ((getThread s id).getD defaultThread).model ∧
    (applyPatch ((getThread s id).getD defaultThread) p).agent
      = p.agent.getD ((getThread s id).getD defaultThread).agent ∧
    (applyPatch ((getThread s id).getD defaultThread) p).busy
      = p.busy.getD ((getThread s id).getD defaultThread).busy ∧
    (applyPatch ((getThread s id).getD defaultThread) p).queue
      = p.queue.getD ((getThread s id).getD defaultThread).queue ∧
    (applyPatch ((getThread s id).getD defaultThread) p).pendingMessage
      = p.pendingMessage.getD ((getThread s id).getD defaultThread).pendingMessage ∧
    (applyPatch ((getThread s id).getD defaultThread) p).pickerTs
      = p.pickerTs.getD ((getThread s id).getD defaultThread).pickerTs := by
  refine ⟨rfl, by simp, ?_, ?_, rfl, rfl, rfl, rfl, rfl, rfl, rfl, rfl⟩
  · intro h
    simp [h]
  · intro j hj
    exact getThread_upsert_other s id j p hj

/-- Witness for C8 at a concrete store, id and patch. -/
theorem C8_witness :
    getThread (upsertThread emptyStore "t" { busy := some true }).2 "t"
      = some (applyPatch defaultThread { busy := some true }) ∧
    getThread (upsertThread emptyStore "t" { busy := some true }).2 "u" = none :=
  ⟨(C8_upsert_merges_and_get_roundtrip emptyStore "t" { busy := some true }).2.2.1 rfl,
   (C8_upsert_merges_and_get_roundtrip emptyStore "t" { busy := some true }).2.2.2.1
      "u" (by decide)⟩

-- ── Claim C9: unknown event types are no-ops ──────────────────────────────

/-- C9: an event whose type is none of step_start, text, tool_use,
step_finish, thinking falls through the switch of `push`: the whole
accumulator state is unchanged, hence the render is unaffected. -/
theorem C9_unknown_event_noop (s : AccState) (e : Event)
    (h : e.type ∉ (["step_start", "text", "tool_use", "step_finish", "thinking"] : List String)) :
    push s e = s ∧ blocksOf (push s e) = blocksOf s := by
  simp only [List.mem_cons, List.mem_singleton, not_or] at h
  obtain ⟨h1, h2, h3, h4, h5, -⟩ := h
  have hp : push s e = s := by
    unfold push
    rw [if_neg h1, if_neg h2, if_neg h3, if_neg h4, if_neg h5]
  exact ⟨hp, by rw [hp]⟩

/-- Witness for C9 at a concrete state and event. -/
theorem C9_witness :
    push initAcc { type := "snapshot" } = initAcc ∧
    blocksOf (push initAcc { type := "snapshot" }) = blocksOf initAcc :=
  C9_unknown_event_noop initAcc { type := "snapshot" } (by decide)

-- ── Claim C6: usage replacement and sticky finished flag ──────────────────

/-- The helper `flushText` moves text between fields and never touches `finished`. -/
theorem flushText_finished (s : AccState) : (flushText s).finished = s.finished := by
  unfold flushText
  split_ifs <;> rfl

/-- The branch `pushStepFinish` only ever sets `finished` to true. -/
theorem pushStepFinish_finished_mono (s : AccState) (p? : Option Part)
    (h : s.finished = true) : (pushStepFinish s p?).finished = true := by
  unfold pushStepFinish
  cases p? with
  | none => simpa
  | some p =>
    dsimp only
    split_ifs
    · rfl
    · cases p.tokens <;> simpa

/-- The transition `push` never clears the finished flag. -/
theorem push_finished_mono (s : AccState) (e : Event) (h : s.finished = true) :
    (push s e).finished = true := by
  unfold push
  split_ifs with h1 h2 h3 h4 h5
  · dsimp only
    split_ifs
    · rw [flushText_finished]
      simpa
    · simpa
  · simpa
  · simp only [flushText_finished]
    simpa
  · exact pushStepFinish_finished_mono s e.part h
  · simp only [flushText_finished]
    simpa
  · simpa

/-- A step-finish event reaches the step-finish branch of the switch. -/
theorem push_step_finish_eq (s : AccState) (sid : Option String) (p? : Option Part) :
    push s { type := "step_finish", sessionID := sid, part := p? }
      = pushStepFinish s p? := by
  simp [push]

/-- C6: a step-finish event carrying `tokens` replaces the entire tracked
usage summary regardless of what was tracked before (last usage wins); a
step-finish whose reason is "stop" sets the finished flag; and once
finished, the flag stays true across any further event sequence. -/
theorem C6_usage_replaced_and_finished_sticky :
    (∀ (s : AccState) (sid : Option String) (p : Part) (tk : Tokens),
      p.tokens = some tk →
      (push s { type := "step_finish", sessionID := sid, part := some p }).tokenInfo
        = some (mkTokenInfo p tk)) ∧
    (∀ (s : AccState) (sid : Option String) (p : Part),
      p.reason = some "stop" →
      (push s { type := "step_finish", sessionID := sid, part := some p }).finished
        = true) ∧
    (∀ (s : AccState) (evs : List Event), s.finished = true →
      (evs.foldl push s).finished = true) := by
  refine ⟨?_, ?_, ?_⟩
  · intro s sid p tk htk
    rw [push_step_finish_eq]
    unfold pushStepFinish
    dsimp only
    rw [htk]
    dsimp only
    split_ifs <;> rfl
  · intro s sid p hr
    rw [push_step_finish_eq]
    unfold pushStepFinish
    dsimp only
    rw [hr]
    cases p.tokens <;> simp
  · intro s evs h
    induction evs generalizing s with
    | nil => simpa
    | cons e es ih => exact ih (push s e) (push_finished_mono s e h)

/-- Concrete step-finish payload used by the C6 witness. -/
def tkW : Tokens :=
  { total := 15, input := 10, output := 5 }

/-- Concrete step-finish part used by the C6 witness. -/
def pW : Part :=
  { tokens := some tkW, reason := some "stop" }

/-- An accumulator already marked finished, used by the C6 witness. -/
def accFin : AccState :=
  { initAcc with finished := true }

/-- Witness for C6 at concrete payloads. -/
theorem C6_witness :
    (push initAcc { type := "step_finish", part := some pW }).tokenInfo
      = some (mkTokenInfo pW tkW) ∧
    (push initAcc { type := "step_finish", part := some pW }).finished = true ∧
    (([{ type := "text" }] : List Event).foldl push accFin).finished = true :=
  ⟨C6_usage_replaced_and_finished_sticky.1 initAcc none pW tkW rfl,
   C6_usage_replaced_and_finished_sticky.2.1 initAcc none pW rfl,
   C6_usage_replaced_and_finished_sticky.2.2 accFin [{ type := "text" }] rfl⟩

-- ── Claim C7: render never returns zero units ─────────────────────────────

/-- Counterexample to C7 as stated: the empty document (no events pushed)
renders exactly one unit, but that unit is the in-progress indicator
(context "Thinking...") appended by the status step, not the
"Processing..." placeholder (which is only emitted when the assembled
block list is empty). -/
theorem C7_counterexample :
    blocksOf initAcc = [contextBlock "Thinking..."] ∧
    blocksOf initAcc ≠ [contextBlock "Processing..."] ∧
    (blocksOf initAcc).length = 1 := by
  refine ⟨by decide, by decide, by decide⟩

/-- C7 (amended): every render returns at least one display unit; the
empty document renders exactly one unit, namely the in-progress
("Thinking...") indicator rather than the "Processing..." placeholder. -/
theorem C7_render_nonempty :
    (∀ s : AccState, 1 ≤ (blocksOf s).length) ∧
    blocksOf initAcc = [contextBlock "Thinking..."] := by
  constructor
  · intro s
    unfold blocksOf ensureNonempty
    split_ifs with h
    · decide
    · exact List.length_pos.mpr h
  · decide

-- ── Claim C4: non-JSON lines are silently discarded ───────────────────────

/-- The per-line processing emits exactly the successful parses of the
non-blank complete lines, in arrival order. -/
theorem procLines_events (parse : String → Option Event) :
    ∀ (ls : List String) (sid : Option String),
      (procLines parse sid ls).2
        = ls.filterMap (fun l => if jsTrim l = "" then none else parse (jsTrim l)) := by
  intro ls
  induction ls with
  | nil => intro sid; rfl
  | cons l ls ih =>
    intro sid
    unfold procLines
    dsimp only
    split_ifs with h
    · rw [ih, List.filterMap_cons, if_pos h]
    · rw [List.filterMap_cons, if_neg h]
      cases hp : parse (jsTrim l) with
      | none => exact ih sid
      | some ev =>
        dsimp only
        rw [ih]

/-- C4: the stdout handler is a total function (feeding any line can never
raise an error that terminates the run), and the events it emits are
exactly the successful parses of the non-blank complete lines, in arrival
order — a complete line on which the parser fails (a non-JSON line)
contributes no event, while all surrounding parseable lines are still
emitted in order. -/
theorem C4_nonjson_line_discarded (parse : String → Option Event)
    (st : RunnerState) (chunk : String) :
    (handleData parse st chunk).2
      = ((st.buffer ++ chunk).splitOn "\n").dropLast.filterMap
          (fun l => if jsTrim l = "" then none else parse (jsTrim l)) := by
  unfold handleData
  exact procLines_events parse _ st.lastSessionID

-- ── Claim C10: section blocks never carry empty text ──────────────────────

/-- Every section block in the list carries non-empty text. -/
def SecOK (bs : List Block) : Prop :=
  ∀ t, Block.section t ∈ bs → t ≠ ""

theorem secOK_nil : SecOK [] := by
  intro t ht
  simp at ht

theorem secOK_append {a b : List Block} (ha : SecOK a) (hb : SecOK b) :
    SecOK (a ++ b) := by
  intro t ht
  rcases List.mem_append.mp ht with h | h
  · exact ha t h
  · exact hb t h

theorem secOK_take {a : List Block} (ha : SecOK a) (n : Nat) :
    SecOK (a.take n) := by
  intro t ht
  exact ha t (List.take_subset n a ht)

theorem secOK_context (txt : String) : SecOK [contextBlock txt] := by
  intro t ht
  simp [contextBlock] at ht

theorem secOK_divider : SecOK [Block.divider] := by
  intro t ht
  simp at ht

/-- Since `markdownSection` substitutes a single space for empty text, its
result never is a section with empty text. -/
theorem markdownSection_ne (u t : String) (h : markdownSection u = Block.section t) :
    t ≠ "" := by
  intro ht
  subst ht
  unfold markdownSection at h
  split_ifs at h with hu
  · simp at h
  · simp at h
    exact hu h

theorem secOK_map_md {α : Type} (l : List α) (f : α → String) :
    SecOK (l.map (fun x => markdownSection (f x))) := by
  intro t ht
  rcases List.mem_map.mp ht with ⟨x, -, hx⟩
  exact markdownSection_ne (f x) t hx

theorem secOK_splitTextBlocks (t : String) : SecOK (splitTextBlocks t) := by
  unfold splitTextBlocks
  split_ifs
  · exact secOK_nil
  · have := secOK_map_md (splitAtBoundaryS t MAX_TEXT_LEN) (fun c => c)
    simpa using this

theorem secOK_splitThinkingBlocks (t : String) : SecOK (splitThinkingBlocks t) := by
  unfold splitThinkingBlocks
  split_ifs
  · exact secOK_nil
  · exact secOK_map_md _ _

theorem secOK_cons_md {bs : List Block} (u : String) (hbs : SecOK bs) :
    SecOK (markdownSection u :: bs) := by
  intro t ht
  rcases List.mem_cons.mp ht with h | h
  · exact markdownSection_ne u t h.symm
  · exact hbs t h

theorem secOK_toolBlocks (d : ToolData) : SecOK (toolBlocks d) := by
  unfold toolBlocks
  dsimp only
  apply secOK_cons_md
  apply secOK_append
  · apply secOK_append
    · split_ifs
      · exact secOK_nil
      · exact secOK_map_md _ _
    · split_ifs
      · exact secOK_map_md _ _
      · exact secOK_nil
  · exact secOK_divider

theorem secOK_segBlocks (p : Seg) : SecOK (segBlocks p) := by
  cases p with
  | text t => exact secOK_splitTextBlocks t
  | tool d => exact secOK_toolBlocks d
  | thinking t => exact secOK_splitThinkingBlocks t

theorem secOK_renderParts (ps : List Seg) :
    ∀ acc, SecOK acc → SecOK (renderParts ps acc) := by
  induction ps with
  | nil => intro acc h; exact h
  | cons p ps ih =>
    intro acc h
    unfold renderParts
    split_ifs
    · exact h
    · exact ih _ (secOK_append h (secOK_segBlocks p))

theorem secOK_withStream (s : AccState) {bs : List Block} (h : SecOK bs) :
    SecOK (withStream s bs) := by
  unfold withStream
  split_ifs
  · exact secOK_append h (secOK_splitTextBlocks s.currentText)
  · exact h

theorem secOK_withStatus (s : AccState) {bs : List Block} (h : SecOK bs) :
    SecOK (withStatus s bs) := by
  unfold withStatus
  split_ifs
  · exact secOK_append h (secOK_context _)
  · cases s.tokenInfo with
    | some t => exact secOK_append h (secOK_context _)
    | none => exact h
  · exact h

theorem secOK_withOverflow {bs : List Block} (h : SecOK bs) :
    SecOK (withOverflow bs) := by
  unfold withOverflow
  split_ifs
  · exact secOK_append (secOK_take h MAX_BLOCKS) (secOK_context _)
  · exact h

theorem secOK_ensureNonempty {bs : List Block} (h : SecOK bs) :
    SecOK (ensureNonempty bs) := by
  unfold ensureNonempty
  split_ifs
  · exact secOK_context _
  · exact h

/-- C10: empty or absent section text is replaced by a single space
(`text || " "` in `markdownSection`), so no render ever emits a
section-type display unit with empty text. -/
theorem C10_sections_nonempty :
    markdownSection "" = Block.section " " ∧
    ∀ (s : AccState) (t : String), Block.section t ∈ blocksOf s → t ≠ "" := by
  constructor
  · rfl
  · intro s
    unfold blocksOf
    exact secOK_ensureNonempty (secOK_withOverflow (secOK_withStatus s
      (secOK_withStream s (secOK_renderParts s.parts [] secOK_nil))))

/-- Accumulator state with streaming text, used by the C10 witness. -/
def accHi : AccState :=
  { initAcc with currentText := "hi" }

/-- Witness for C10: the section rendered for streaming text "hi" is in
the render and its text is non-empty. -/
theorem C10_witness :
    Block.section "hi" ∈ blocksOf accHi ∧ ("hi" : String) ≠ "" :=
  ⟨by decide, C10_sections_nonempty.2 accHi "hi" (by decide)⟩

-- ── Claim C3: boundary splitting is bounded and lossless ──────────────────

/-- The index `jsLastIndexOf` never exceeds its `from` index. -/
theorem jsLastIndexOf_le (l : List Char) (c : Char) (fr : Nat) :
    jsLastIndexOf l c fr ≤ (fr : Int) := by
  unfold jsLastIndexOf
  cases hl : ((List.range l.length).filter
      (fun i => decide (i ≤ fr) && (l.get? i == some c))).getLast? with
  | none =>
    simp only
    omega
  | some i =>
    simp only
    have hmem : i ∈ (List.range l.length).filter
        (fun i => decide (i ≤ fr) && (l.get? i == some c)) := by
      have : i ∈ ((List.range l.length).filter
          (fun i => decide (i ≤ fr) && (l.get? i == some c))).getLast? := hl ▸ rfl
      exact List.mem_of_mem_getLast? this
    rw [List.mem_filter] at hmem
    have h2 := hmem.2
    simp at h2
    exact_mod_cast h2.1

/-- The chosen split index never exceeds the limit. -/
theorem pickSplit_le (rem : List Char) (max : Nat) : pickSplit rem max ≤ max := by
  unfold pickSplit
  dsimp only
  split_ifs with h1 h2
  · exact le_refl max
  · exact Int.toNat_le.mpr (jsLastIndexOf_le rem ' ' max)
  · exact Int.toNat_le.mpr (jsLastIndexOf_le rem '\n' max)

/-- With a positive limit the chosen split index is positive: indices `≤ 0`
fall through to the hard cut at `max`. -/
theorem pickSplit_pos (rem : List Char) (max : Nat) (h : 1 ≤ max) :
    1 ≤ pickSplit rem max := by
  unfold pickSplit
  dsimp only
  split_ifs with h1 h2
  · exact h
  · omega
  · omega

theorem stripLeadNL_length (l : List Char) : (stripLeadNL l).length ≤ l.length := by
  cases l with
  | nil => simp [stripLeadNL]
  | cons c cs =>
    simp only [stripLeadNL]
    split_ifs <;> simp

/-- Either no leading newline was stripped, or exactly one was. -/
theorem stripLeadNL_cases (l : List Char) :
    stripLeadNL l = l ∨ l = '\n' :: stripLeadNL l := by
  cases l with
  | nil => left; rfl
  | cons c cs =>
    simp only [stripLeadNL]
    split_ifs with h
    · right
      rw [h]
    · left; rfl

/-- Reassembles chunks, re-inserting a newline after chunk `i` exactly when
flag `i` is true (i.e. when the split stripped a leading newline there). -/
def rejoinB : List (List Char) → List Bool → List Char
  | [], _ => []
  | ch :: chs, [] => ch ++ rejoinB chs []
  | ch :: chs, b :: bs => ch ++ (if b then ['\n'] else []) ++ rejoinB chs bs

/-- Non-empty chunks that reassemble to `l` number at most `l.length`. -/
theorem rejoinB_length_ge :
    ∀ (chs : List (List Char)) (bs : List Bool),
      (∀ c ∈ chs, c ≠ []) → chs.length ≤ (rejoinB chs bs).length := by
  intro chs
  induction chs with
  | nil => intro bs h; simp [rejoinB]
  | cons ch chs ih =>
    intro bs h
    have hch : 1 ≤ ch.length := by
      have := h ch (List.mem_cons_self ch chs)
      cases ch with
      | nil => simp at this
      | cons a as => simp
    have hrest : ∀ c ∈ chs, c ≠ [] := fun c hc => h c (List.mem_cons_of_mem ch hc)
    cases bs with
    | nil =>
      have := ih [] hrest
      simp only [rejoinB, List.length_cons, List.length_append]
      omega
    | cons b bs =>
      have := ih bs hrest
      simp only [rejoinB, List.length_cons, List.length_append]
      omega

/-- The loop produces non-empty chunks of length at most `max` that
reassemble (with newline re-insertion) to the input, provided the fuel
covers the input length and the limit is positive. -/
theorem splitLoop_spec (max : Nat) (hmax : 1 ≤ max) :
    ∀ (fuel : Nat) (rem : List Char), rem.length ≤ fuel →
      (∀ c ∈ splitLoop fuel rem max, c ≠ [] ∧ c.length ≤ max) ∧
      ∃ bs : List Bool, rejoinB (splitLoop fuel rem max) bs = rem := by
  intro fuel
  induction fuel with
  | zero =>
    intro rem hlen
    have : rem = [] := List.length_eq_zero.mp (Nat.le_zero.mp hlen)
    subst this
    exact ⟨by intro c hc; simp [splitLoop] at hc, ⟨[], rfl⟩⟩
  | succ fuel ih =>
    intro rem hlen
    unfold splitLoop
    split_ifs with h0 h1
    · have : rem = [] := List.length_eq_zero.mp h0
      subst this
      exact ⟨by intro c hc; simp at hc, ⟨[], rfl⟩⟩
    · refine ⟨?_, ⟨[], by simp [rejoinB]⟩⟩
      intro c hc
      rw [List.mem_singleton] at hc
      subst hc
      exact ⟨fun hnil => h0 (by rw [hnil]; rfl), h1⟩
    · have hsp1 : 1 ≤ pickSplit rem max := pickSplit_pos rem max hmax
      have hspm : pickSplit rem max ≤ max := pickSplit_le rem max
      have hrem1 : 1 ≤ rem.length := by omega
      have hrest : (stripLeadNL (rem.drop (pickSplit rem max))).length ≤ fuel := by
        have hd : (rem.drop (pickSplit rem max)).length = rem.length - pickSplit rem max := by
          simp
        have := stripLeadNL_length (rem.drop (pickSplit rem max))
        omega
      obtain ⟨hchunks, bs', hbs'⟩ := ih (stripLeadNL (rem.drop (pickSplit rem max))) hrest
      constructor
      · intro c hc
        rcases List.mem_cons.mp hc with h | h
        · subst h
          constructor
          · have : ¬ (pickSplit rem max = 0 ∨ rem = []) := by
              push_neg
              refine ⟨by omega, fun he => h0 (by rw [he]; rfl)⟩
            intro hnil
            rw [List.take_eq_nil_iff] at hnil
            exact this hnil
          · calc (rem.take (pickSplit rem max)).length
                ≤ pickSplit rem max := by simp
              _ ≤ max := hspm
        · exact hchunks c h
      · rcases stripLeadNL_cases (rem.drop (pickSplit rem max)) with hs | hs
        · refine ⟨false :: bs', ?_⟩
          have hre : rem.take (pickSplit rem max)
              ++ stripLeadNL (rem.drop (pickSplit rem max)) = rem := by
            rw [hs]
            exact List.take_append_drop _ rem
          simpa [rejoinB, hbs'] using hre
        · refine ⟨true :: bs', ?_⟩
          have hre : rem.take (pickSplit rem max)
              ++ ('\n' :: stripLeadNL (rem.drop (pickSplit rem max))) = rem := by
            rw [← hs]
            exact List.take_append_drop _ rem
          simpa [rejoinB, hbs'] using hre

/-- Counterexample to C3 as stated: the string "a bb" with limit 2 has
⌈4/2⌉ = 2, but the splitter produces 3 chunks (["a", " b", "b"]): a split
at a space does not consume the space, so a chunk can consume fewer than
`max` characters and the ⌈L/M⌉ bound fails. -/
theorem C3_counterexample :
    (splitAtBoundary ("a bb".toList) 2).length = 3 ∧
    ("a bb".toList).length = 4 ∧
    ¬ ((splitAtBoundary ("a bb".toList) 2).length
        ≤ (("a bb".toList).length + 2 - 1) / 2) := by
  refine ⟨by decide, by decide, by decide⟩

/-- C3 (amended): for a text of length L strictly greater than the limit
M ≥ 1, every chunk is non-empty and of length at most M, the number of
chunks is at most L (the ⌈L/M⌉ bound of the original claim does not hold),
and re-inserting a newline between two consecutive chunks exactly where
the split stripped one reassembles the original text exactly — no
characters lost or duplicated. -/
theorem C3_split_bounded_lossless (l : List Char) (max : Nat)
    (h1 : 1 ≤ max) (h2 : max < l.length) :
    (∀ c ∈ splitAtBoundary l max, c ≠ [] ∧ c.length ≤ max) ∧
    (splitAtBoundary l max).length ≤ l.length ∧
    ∃ bs : List Bool, rejoinB (splitAtBoundary l max) bs = l := by
  have heq : splitAtBoundary l max = splitLoop l.length l max := by
    unfold splitAtBoundary
    rw [if_neg (by omega)]
  obtain ⟨hc, bs, hbs⟩ := splitLoop_spec max h1 l.length l (le_refl _)
  rw [heq]
  refine ⟨hc, ?_, ⟨bs, hbs⟩⟩
  have := rejoinB_length_ge (splitLoop l.length l max) bs (fun c hcm => (hc c hcm).1)
  rw [hbs] at this
  exact this

/-- Witness for C3 on the concrete text "ab\ncd ef" with limit 4. -/
theorem C3_witness :
    1 ≤ 4 ∧ 4 < ("ab\ncd ef".toList).length ∧
    (splitAtBoundary ("ab\ncd ef".toList) 4).length ≤ ("ab\ncd ef".toList).length :=
  ⟨by decide, by decide,
   (C3_split_bounded_lossless ("ab\ncd ef".toList) 4 (by decide) (by decide)).2.1⟩

-- ── Claim C5: flag construction ───────────────────────────────────────────

/-- The flag tokens used by the argument builder. -/
def flagTokens : List String :=
  ["--session", "-m", "--agent", "--command", "--dir", "-f"]

/-- A value that does not collide with any flag token. -/
def NoFlagVal (v : Option String) : Prop :=
  ∀ x, v = some x → x ∉ flagTokens

theorem mem_optFlag {a flag : String} {v : Option String} :
    a ∈ optFlag flag v ↔ ∃ s, v = some s ∧ s ≠ "" ∧ (a = flag ∨ a = s) := by
  cases v with
  | none => simp [optFlag]
  | some s =>
    unfold optFlag
    dsimp only
    split_ifs with h
    · simp [h]
    · simp only [List.mem_cons, List.mem_singleton, List.not_mem_nil, or_false]
      constructor
      · intro hm
        exact ⟨s, rfl, h, hm⟩
      · rintro ⟨s', hs', -, hm⟩
        cases hs'
        exact hm

theorem mem_modelArgs {a : String} {o : RunOptions} :
    a ∈ modelArgs o ↔
      (a = "-m" ∨ (∃ m, o.model = some m ∧ m ≠ "" ∧ a = m)
        ∨ (jsTruthy o.model = false ∧ a = DEFAULT_MODEL)) := by
  cases hm : o.model with
  | none => simp [modelArgs, hm, jsTruthy]
  | some m =>
    unfold modelArgs
    rw [hm]
    dsimp only
    split_ifs with h
    · subst h
      simp [jsTruthy]
    · simp only [List.mem_cons, List.mem_singleton, List.not_mem_nil, or_false,
        jsTruthy, hm]
      constructor
      · rintro (h1 | h2)
        · exact Or.inl h1
        · exact Or.inr (Or.inl ⟨m, rfl, h, h2⟩)
      · rintro (h1 | ⟨m', hm', -, ha⟩ | ⟨hf, -⟩)
        · exact Or.inl h1
        · cases hm'
          exact Or.inr ha
        · simp [h] at hf

theorem mem_filesArgs {a : String} {o : RunOptions} :
    a ∈ filesArgs o ↔ ∃ fs, o.files = some fs ∧ fs ≠ [] ∧ (a = "-f" ∨ a ∈ fs) := by
  cases hf : o.files with
  | none => simp [filesArgs, hf]
  | some fs =>
    unfold filesArgs
    rw [hf]
    dsimp only
    split_ifs with h
    · simp [h]
    · simp only [List.mem_flatMap, List.mem_cons, List.mem_singleton,
        List.not_mem_nil, or_false]
      constructor
      · rintro ⟨f, hfm, hfa | hfa⟩
        · exact ⟨fs, rfl, h, Or.inl hfa⟩
        · exact ⟨fs, rfl, h, Or.inr (hfa ▸ hfm)⟩
      · rintro ⟨fs', hfs', -, ha | ha⟩
        · cases hfs'
          cases fs with
          | nil => exact absurd rfl h
          | cons g gs => exact ⟨g, List.mem_cons_self g gs, Or.inl ha⟩
        · cases hfs'
          exact ⟨a, ha, Or.inr rfl⟩

/-- Counterexample to C5 as stated: a request with no model override still
gets a model flag — the builder always appends `-m`, falling back to the
default model when no override is present. -/
theorem C5_counterexample :
    ({ message := "hi" } : RunOptions).model = none ∧
    "-m" ∈ buildArgs { message := "hi" } ∧
    DEFAULT_MODEL ∈ buildArgs { message := "hi" } := by
  refine ⟨rfl, by decide, by decide⟩

/-- C5 (amended): provided the message, the option values and the file
names do not collide with the flag tokens themselves, the session, agent,
command, directory and file flags appear in the argument list exactly when
the corresponding input is present (and non-empty); the model flag is
always present — with the override value when one is given, else with the
default model — and the message is the final positional argument. -/
theorem C5_flags_iff_present (o : RunOptions)
    (hmsg : o.message ∉ flagTokens)
    (hsid : NoFlagVal o.sessionID) (hmod : NoFlagVal o.model)
    (hag : NoFlagVal o.agent) (hcom : NoFlagVal o.command)
    (hdir : NoFlagVal o.directory)
    (hfil : ∀ fs, o.files = some fs → ∀ f ∈ fs, f ∉ flagTokens) :
    ("--session" ∈ buildArgs o ↔ jsTruthy o.sessionID = true) ∧
    ("--agent" ∈ buildArgs o ↔ jsTruthy o.agent = true) ∧
    ("--command" ∈ buildArgs o ↔ jsTruthy o.command = true) ∧
    ("--dir" ∈ buildArgs o ↔ jsTruthy o.directory = true) ∧
    ("-f" ∈ buildArgs o ↔ ∃ fs, o.files = some fs ∧ fs ≠ []) ∧
    ("-m" ∈ buildArgs o) ∧
    (∀ m, o.model = some m → m ≠ "" → m ∈ buildArgs o) ∧
    (jsTruthy o.model = false → DEFAULT_MODEL ∈ buildArgs o) ∧
    ((buildArgs o).getLast? = some o.message) := by
  have hfix : ∀ a : String, a ∈ flagTokens →
      a ∉ (["run", "--format", "json", "--thinking"] : List String) := by
    decide
  have hdm : DEFAULT_MODEL ∉ flagTokens := by decide
  have hmem : ∀ a : String, a ∈ buildArgs o ↔
      (a ∈ (["run", "--format", "json", "--thinking"] : List String)
        ∨ a ∈ optFlag "--session" o.sessionID
        ∨ a ∈ modelArgs o
        ∨ a ∈ optFlag "--agent" o.agent
        ∨ a ∈ optFlag "--command" o.command
        ∨ a ∈ optFlag "--dir" o.directory
        ∨ a ∈ filesArgs o
        ∨ a = o.message) := by
    intro a
    simp only [buildArgs, List.mem_append, List.mem_singleton]
    tauto
  have optCase : ∀ (flag : String) (v : Option String), flag ∈ flagTokens →
      NoFlagVal v → ∀ a ∈ optFlag flag v, a ∈ flagTokens → a = flag := by
    intro flag v hfl hv a ha hafl
    rcases mem_optFlag.mp ha with ⟨s, hs, -, h | h⟩
    · exact h
    · subst h
      exact absurd hafl (hv a hs)
  have flagResolve : ∀ a : String, a ∈ flagTokens → a ∈ buildArgs o →
      (a ∈ optFlag "--session" o.sessionID ∨ a ∈ modelArgs o
        ∨ a ∈ optFlag "--agent" o.agent ∨ a ∈ optFlag "--command" o.command
        ∨ a ∈ optFlag "--dir" o.directory ∨ a ∈ filesArgs o) := by
    intro a hafl hab
    have hh := (hmem a).mp hab
    have hn1 : a ∉ (["run", "--format", "json", "--thinking"] : List String) :=
      hfix a hafl
    have hn2 : a ≠ o.message := fun he => hmsg (he ▸ hafl)
    tauto
  have notInModel : ∀ a : String, a ∈ flagTokens → a ≠ "-m" → a ∉ modelArgs o := by
    intro a hafl ham hm
    rcases mem_modelArgs.mp hm with h | ⟨m, hmo, -, h⟩ | ⟨-, h⟩
    · exact ham h
    · subst h
      exact absurd hafl (hmod a hmo)
    · subst h
      exact absurd hafl hdm
  have notInFiles : ∀ a : String, a ∈ flagTokens → a ≠ "-f" → a ∉ filesArgs o := by
    intro a hafl haf hm
    rcases mem_filesArgs.mp hm with ⟨fs, hfs, -, h | h⟩
    · exact haf h
    · exact absurd hafl (hfil fs hfs a h)
  have optIff : ∀ (flag : String) (v : Option String), flag ∈ flagTokens →
      jsTruthy v = true → flag ∈ optFlag flag v := by
    intro flag v _ hv
    cases v with
    | none => simp [jsTruthy] at hv
    | some s =>
      simp only [jsTruthy, decide_eq_true_eq] at hv
      exact mem_optFlag.mpr ⟨s, rfl, by simpa using hv, Or.inl rfl⟩
  have optTruthy : ∀ (flag : String) (v : Option String),
      flag ∈ optFlag flag v → jsTruthy v = true := by
    intro flag v hm
    rcases mem_optFlag.mp hm with ⟨s, hs, hne, -⟩
    simp [jsTruthy, hs, hne]
  refine ⟨?_, ?_, ?_, ?_, ?_, ?_, ?_, ?_, ?_⟩
  · constructor
    · intro hin
      have hfl : "--session" ∈ flagTokens := by decide
      rcases flagResolve _ hfl hin with h | h | h | h | h | h
      · exact optTruthy _ _ h
      · exact absurd h (notInModel _ hfl (by decide))
      · have := optCase "--agent" o.agent (by decide) hag _ h hfl
        exact absurd this (by decide)
      · have := optCase "--command" o.command (by decide) hcom _ h hfl
        exact absurd this (by decide)
      · have := optCase "--dir" o.directory (by decide) hdir _ h hfl
        exact absurd this (by decide)
      · exact absurd h (notInFiles _ hfl (by decide))
    · intro ht
      exact (hmem _).mpr (Or.inr (Or.inl (optIff _ _ (by decide) ht)))
  · constructor
    · intro hin
      have hfl : "--agent" ∈ flagTokens := by decide
      rcases flagResolve _ hfl hin with h | h | h | h | h | h
      · have := optCase "--session" o.sessionID (by decide) hsid _ h hfl
        exact absurd this (by decide)
      · exact absurd h (notInModel _ hfl (by decide))
      · exact optTruthy _ _ h
      · have := optCase "--command" o.command (by decide) hcom _ h hfl
        exact absurd this (by decide)
      · have := optCase "--dir" o.directory (by decide) hdir _ h hfl
        exact absurd this (by decide)
      · exact absurd h (notInFiles _ hfl (by decide))
    · intro ht
      exact (hmem _).mpr (Or.inr (Or.inr (Or.inr (Or.inl (optIff _ _ (by decide) ht)))))
  · constructor
    · intro hin
      have hfl : "--command" ∈ flagTokens := by decide
      rcases flagResolve _ hfl hin with h | h | h | h | h | h
      · have := optCase "--session" o.sessionID (by decide) hsid _ h hfl
        exact absurd this (by decide)
      · exact absurd h (notInModel _ hfl (by decide))
      · have := optCase "--agent" o.agent (by decide) hag _ h hfl
        exact absurd this (by decide)
      · exact optTruthy _ _ h
      · have := optCase "--dir" o.directory (by decide) hdir _ h hfl
        exact absurd this (by decide)
      · exact absurd h (notInFiles _ hfl (by decide))
    · intro ht
      exact (hmem _).mpr (Or.inr (Or.inr (Or.inr (Or.inr (Or.inl
        (optIff _ _ (by decide) ht))))))
  · constructor
    · intro hin
      have hfl : "--dir" ∈ flagTokens := by decide
      rcases flagResolve _ hfl hin with h | h | h | h | h | h
      · have := optCase "--session" o.sessionID (by decide) hsid _ h hfl
        exact absurd this (by decide)
      · exact absurd h (notInModel _ hfl (by decide))
      · have := optCase "--agent" o.agent (by decide) hag _ h hfl
        exact absurd this (by decide)
      · have := optCase "--command" o.command (by decide) hcom _ h hfl
        exact absurd this (by decide)
      · exact optTruthy _ _ h
      · exact absurd h (notInFiles _ hfl (by decide))
    · intro ht
      exact (hmem _).mpr (Or.inr (Or.inr (Or.inr (Or.inr (Or.inr (Or.inl
        (optIff _ _ (by decide) ht)))))))
  · constructor
    · intro hin
      have hfl : "-f" ∈ flagTokens := by decide
      rcases flagResolve _ hfl hin with h | h | h | h | h | h
      · have := optCase "--session" o.sessionID (by decide) hsid _ h hfl
        exact absurd this (by decide)
      · exact absurd h (notInModel _ hfl (by decide))
      · have := optCase "--agent" o.agent (by decide) hag _ h hfl
        exact absurd this (by decide)
      · have := optCase "--command" o.command (by decide) hcom _ h hfl
        exact absurd this (by decide)
      · have := optCase "--dir" o.directory (by decide) hdir _ h hfl
        exact absurd this (by decide)
      · rcases mem_filesArgs.mp h with ⟨fs, hfs, hne, -⟩
        exact ⟨fs, hfs, hne⟩
    · rintro ⟨fs, hfs, hne⟩
      have hm2 : "-f" ∈ filesArgs o := mem_filesArgs.mpr ⟨fs, hfs, hne, Or.inl rfl⟩
      refine (hmem _).mpr ?_
      tauto
  · have hm2 : "-m" ∈ modelArgs o := mem_modelArgs.mpr (Or.inl rfl)
    refine (hmem _).mpr ?_
    tauto
  · intro m hmo hne
    have hm2 : m ∈ modelArgs o := mem_modelArgs.mpr (Or.inr (Or.inl ⟨m, hmo, hne, rfl⟩))
    refine (hmem _).mpr ?_
    tauto
  · intro hf
    have hm2 : DEFAULT_MODEL ∈ modelArgs o := mem_modelArgs.mpr (Or.inr (Or.inr ⟨hf, rfl⟩))
    refine (hmem _).mpr ?_
    tauto
  · unfold buildArgs
    exact List.getLast?_concat _

/-- Concrete fully-populated request used by the C5 witness. -/
def optsW : RunOptions :=
  { message := "do it"
    sessionID := some "s1"
    directory := some "/tmp/proj"
    model := some "m1"
    agent := some "a1"
    command := some "c1"
    files := some ["f1", "f2"] }

/-- Witness for C5 on a request with every optional input present. -/
theorem C5_witness :
    "--session" ∈ buildArgs optsW ∧ "--agent" ∈ buildArgs optsW ∧
    "-m" ∈ buildArgs optsW ∧ (buildArgs optsW).getLast? = some "do it" :=
  have h := C5_flags_iff_present optsW (by decide)
    (fun x hx => by cases hx; decide) (fun x hx => by cases hx; decide)
    (fun x hx => by cases hx; decide) (fun x hx => by cases hx; decide)
    (fun x hx => by cases hx; decide)
    (fun fs hfs => by cases hfs; decide)
  ⟨h.1.mpr (by decide), h.2.1.mpr (by decide), h.2.2.2.2.2.1, h.2.2.2.2.2.2.2.2⟩

-- ── Claims C1 and C2: run completion and queue draining ───────────────────

/-- The runner never tracks an empty-string session id: the initial id is
normalised by `|| null` and updates are guarded by truthiness. -/
theorem procLines_sid_ok (parse : String → Option Event) :
    ∀ (ls : List String) (sid : Option String), sid ≠ some "" →
      (procLines parse sid ls).1 ≠ some "" := by
  intro ls
  induction ls with
  | nil => intro sid h; exact h
  | cons l ls ih =>
    intro sid h
    unfold procLines
    dsimp only
    split_ifs with ht
    · exact ih sid h
    · cases hp : parse (jsTrim l) with
      | none => exact ih sid h
      | some ev =>
        dsimp only
        apply ih
        split_ifs with hj
        · cases hv : ev.sessionID with
          | none => simp
          | some x =>
            simp only [hv, jsTruthy, decide_eq_true_eq] at hj
            simp [hv, hj]
        · exact h

theorem initSid_ok (o : Option String) : initSid o ≠ some "" := by
  unfold initSid
  cases o with
  | none => simp
  | some s =>
    dsimp only
    split_ifs with h
    · simp
    · simp [h]

theorem runnerRun_sid_ok (parse : String → Option Event) (sid0 : Option String)
    (chunks : List String) : (runnerRun parse sid0 chunks).lastSessionID ≠ some "" := by
  unfold runnerRun
  have base : (⟨"", initSid sid0⟩ : RunnerState).lastSessionID ≠ some "" :=
    initSid_ok sid0
  generalize hst : (⟨"", initSid sid0⟩ : RunnerState) = st at base ⊢
  clear hst
  induction chunks generalizing st with
  | nil => simpa using base
  | cons c cs ih =>
    simp only [List.foldl_cons]
    apply ih
    unfold handleData
    dsimp only
    exact procLines_sid_ok parse _ st.lastSessionID base

/-- The terminal `done` signal never carries an empty-string handle. -/
theorem reportedSid_ok (parse : String → Option Event) (sid0 : Option String)
    (chunks : List String) : reportedSid parse sid0 chunks ≠ some "" := by
  unfold reportedSid closeFlush
  split_ifs with h
  · exact runnerRun_sid_ok parse sid0 chunks
  · cases hp : parse (jsTrim (runnerRun parse sid0 chunks).buffer) with
    | none => exact runnerRun_sid_ok parse sid0 chunks
    | some ev =>
      dsimp only
      split_ifs with hj
      · cases hv : ev.sessionID with
        | none => simp
        | some x =>
          simp only [hv, jsTruthy, decide_eq_true_eq] at hj
          simp [hj]
      · exact runnerRun_sid_ok parse sid0 chunks

/-- A busy-only patch leaves the queue unchanged. -/
theorem threadQueue_upsert_busy (s : Store) (ts : String) (b : Bool) :
    threadQueue (upsertThread s ts { busy := some b }).2 ts = threadQueue s ts := by
  unfold threadQueue
  rw [getThread_upsert_self]
  cases getThread s ts <;> simp [applyPatch, defaultThread]

/-- A queue patch replaces the queue. -/
theorem threadQueue_upsert_queue (s : Store) (ts : String) (q : List String) :
    threadQueue (upsertThread s ts { queue := some q }).2 ts = q := by
  unfold threadQueue
  rw [getThread_upsert_self]
  simp [applyPatch]

/-- The queue of the stored-or-default record is exactly `threadQueue`. -/
theorem queue_getD (s : Store) (ts : String) :
    ((getThread s ts).getD defaultThread).queue = threadQueue s ts := by
  unfold threadQueue
  cases getThread s ts <;> simp [defaultThread]

/-- Provided each run preserves the queue (no concurrent arrivals), the
drain loop runs exactly the queued messages in FIFO order, one at a time,
and leaves the queue empty, as long as the fuel covers the queue length. -/
theorem drainLoop_spec (runOne : Store → String → Store) (ts : String)
    (hrun : ∀ s m, threadQueue (runOne s m) ts = threadQueue s ts) :
    ∀ (fuel : Nat) (s : Store), (threadQueue s ts).length ≤ fuel →
      (drainLoop runOne ts fuel s).2 = threadQueue s ts ∧
      threadQueue (drainLoop runOne ts fuel s).1 ts = [] := by
  intro fuel
  induction fuel with
  | zero =>
    intro s hlen
    have : threadQueue s ts = [] := List.length_eq_zero.mp (Nat.le_zero.mp hlen)
    rw [this]
    exact ⟨rfl, by simp [drainLoop, this]⟩
  | succ fuel ih =>
    intro s hlen
    unfold drainLoop
    cases hq : threadQueue s ts with
    | nil => exact ⟨rfl, by simp [hq]⟩
    | cons next rest =>
      dsimp only
      have hq1 : threadQueue (runOne (upsertThread s ts { queue := some rest }).2 next) ts
          = rest := by
        rw [hrun, threadQueue_upsert_queue]
      have hlen1 : (threadQueue (runOne (upsertThread s ts { queue := some rest }).2 next) ts).length
          ≤ fuel := by
        rw [hq1]
        have := hlen
        rw [hq] at this
        simpa using Nat.le_of_succ_le_succ this
      obtain ⟨htr, hfin⟩ := ih _ hlen1
      refine ⟨?_, hfin⟩
      rw [htr, hq1]

/-- C1: a completed run whose terminal signal carries a non-null handle h
persists h as the conversation's continuation handle; a null handle leaves
the store (hence the previously stored handle) unchanged; and the whole
run-and-drain of `runWithQueue`, when no request arrives during it, ends
with the context present, not busy and with an empty queue. -/
theorem C1_completion_persists_handle_and_clears_queue
    (parse : String → Option Event) (sid0 : Option String) (chunks : List String)
    (store : Store) (ts msg : String) (runOne : Store → String → Store)
    (fuel : Nat) :
    (∀ h, reportedSid parse sid0 chunks = some h →
      ((getThread (doneUpdate store ts (some h)) ts).map Thread.sessionID)
        = some (some h)) ∧
    (reportedSid parse sid0 chunks = none → doneUpdate store ts none = store) ∧
    (isBusy store ts = false →
      (∀ s m, threadQueue (runOne s m) ts = threadQueue s ts) →
      (threadQueue store ts).length ≤ fuel →
      getThread (runWithQueueModel runOne ts msg fuel store).1 ts ≠ none ∧
      isBusy (runWithQueueModel runOne ts msg fuel store).1 ts = false ∧
      threadQueue (runWithQueueModel runOne ts msg fuel store).1 ts = []) := by
  refine ⟨?_, ?_, ?_⟩
  · intro h hh
    have hne : h ≠ "" := by
      intro he
      subst he
      exact reportedSid_ok parse sid0 chunks hh
    unfold doneUpdate
    dsimp only
    rw [if_neg hne]
    rw [getThread_upsert_self]
    simp [applyPatch]
  · intro _
    rfl
  · intro hnb hrun hfl
    have main : getThread (runStart runOne ts msg fuel store).1 ts ≠ none ∧
        isBusy (runStart runOne ts msg fuel store).1 ts = false ∧
        threadQueue (runStart runOne ts msg fuel store).1 ts = [] := by
      unfold runStart
      dsimp only
      have hq1 : threadQueue (runOne (upsertThread store ts { busy := some true }).2 msg) ts
          = threadQueue store ts := by
        rw [hrun, threadQueue_upsert_busy]
      have hlen1 : (threadQueue (runOne (upsertThread store ts { busy := some true }).2 msg) ts).length
          ≤ fuel := by
        rw [hq1]
        exact hfl
      obtain ⟨-, hfin⟩ := drainLoop_spec runOne ts hrun fuel _ hlen1
      refine ⟨by rw [getThread_upsert_self]; exact Option.some_ne_none _, ?_, ?_⟩
      · unfold isBusy
        rw [getThread_upsert_self]
        rfl
      · unfold threadQueue
        rw [getThread_upsert_self]
        show (applyPatch _ { busy := some false }).queue = []
        have : (applyPatch ((getThread (drainLoop runOne ts fuel
            (runOne (upsertThread store ts { busy := some true }).2 msg)).1 ts).getD
              defaultThread) { busy := some false }).queue
            = threadQueue (drainLoop runOne ts fuel
                (runOne (upsertThread store ts { busy := some true }).2 msg)).1 ts := by
          rw [← queue_getD]
          rfl
        rw [this]
        exact hfin
    unfold runWithQueueModel
    cases hg : getThread store ts with
    | none => exact main
    | some th =>
      have hb : th.busy = false := by
        unfold isBusy at hnb
        rw [hg] at hnb
        simpa using hnb
      dsimp only
      rw [if_neg (by rw [hb]; exact Bool.false_ne_true)]
      exact main

/-- Witness for C1: a run that reports handle "sess-42" into an idle
store, and a full run-and-drain from an idle store. -/
theorem C1_witness :
    ((getThread (doneUpdate emptyStore "t" (some "sess-42")) "t").map Thread.sessionID)
      = some (some "sess-42") ∧
    getThread (runWithQueueModel (fun s _ => s) "t" "hi" 3 emptyStore).1 "t" ≠ none ∧
    isBusy (runWithQueueModel (fun s _ => s) "t" "hi" 3 emptyStore).1 "t" = false ∧
    threadQueue (runWithQueueModel (fun s _ => s) "t" "hi" 3 emptyStore).1 "t" = [] :=
  have h := C1_completion_persists_handle_and_clears_queue (fun _ => none)
    (some "sess-42") [] emptyStore "t" "hi" (fun s _ => s) 3
  ⟨h.1 "sess-42" (by decide),
   (h.2.2 (by decide) (fun _ _ => rfl) (by decide)).1,
   (h.2.2 (by decide) (fun _ _ => rfl) (by decide)).2.1,
   (h.2.2 (by decide) (fun _ _ => rfl) (by decide)).2.2⟩

/-- The busy path of `runWithQueue`: append the request, run nothing. -/
theorem runWithQueue_busy (runOne : Store → String → Store) (ts m : String)
    (fuel : Nat) (store : Store) (th : Thread)
    (hget : getThread store ts = some th) (hb : th.busy = true) :
    runWithQueueModel runOne ts m fuel store
      = ((upsertThread store ts { queue := some (th.queue ++ [m]) }).2, []) := by
  unfold runWithQueueModel
  rw [hget]
  dsimp only
  rw [if_pos hb]

/-- C2: two requests A then B arriving while the conversation is busy are
appended to the queue in arrival order — A before B — and the drain loop
then runs the queue strictly in FIFO order, one `runOne` call per queued
message (never batched): the processing trace equals the queue, so A runs
to completion strictly before B starts. -/
theorem C2_fifo_queue_and_drain (store : Store) (ts A B : String)
    (runOne : Store → String → Store) (fuel : Nat) (th : Thread)
    (hget : getThread store ts = some th) (hbusy : th.busy = true)
    (hrun : ∀ s m, threadQueue (runOne s m) ts = threadQueue s ts)
    (hfuel : th.queue.length + 2 ≤ fuel) :
    threadQueue (runWithQueueModel runOne ts B fuel
        (runWithQueueModel runOne ts A fuel store).1).1 ts
      = th.queue ++ [A, B] ∧
    (drainLoop runOne ts fuel
        (runWithQueueModel runOne ts B fuel
          (runWithQueueModel runOne ts A fuel store).1).1).2
      = th.queue ++ [A, B] := by
  have s1eq : (runWithQueueModel runOne ts A fuel store).1
      = (upsertThread store ts { queue := some (th.queue ++ [A]) }).2 :=
    congrArg Prod.fst (runWithQueue_busy runOne ts A fuel store th hget hbusy)
  have hg1 : getThread (runWithQueueModel runOne ts A fuel store).1 ts
      = some (applyPatch th { queue := some (th.queue ++ [A]) }) := by
    rw [s1eq, getThread_upsert_self, hget]
    rfl
  have hb1 : (applyPatch th { queue := some (th.queue ++ [A]) }).busy = true := by
    simpa [applyPatch] using hbusy
  have s2eq : (runWithQueueModel runOne ts B fuel
      (runWithQueueModel runOne ts A fuel store).1).1
      = (upsertThread (runWithQueueModel runOne ts A fuel store).1 ts
          { queue := some ((applyPatch th { queue := some (th.queue ++ [A]) }).queue
              ++ [B]) }).2 :=
    congrArg Prod.fst (runWithQueue_busy runOne ts B fuel
      (runWithQueueModel runOne ts A fuel store).1
      (applyPatch th { queue := some (th.queue ++ [A]) }) hg1 hb1)
  have hq2 : threadQueue (runWithQueueModel runOne ts B fuel
      (runWithQueueModel runOne ts A fuel store).1).1 ts = th.queue ++ [A, B] := by
    rw [s2eq, threadQueue_upsert_queue]
    simp [applyPatch]
  refine ⟨hq2, ?_⟩
  have hlen : (threadQueue (runWithQueueModel runOne ts B fuel
      (runWithQueueModel runOne ts A fuel store).1).1 ts).length ≤ fuel := by
    rw [hq2]
    simp only [List.length_append]
    simpa using hfuel
  obtain ⟨htr, -⟩ := drainLoop_spec runOne ts hrun fuel _ hlen
  rw [htr, hq2]

/-- A concrete busy store used by the C2 witness. -/
def busyStore : Store :=
  (upsertThread emptyStore "t" { busy := some true }).2

/-- The busy thread record stored in `busyStore`. -/
def busyThread : Thread :=
  applyPatch defaultThread { busy := some true }

/-- Witness for C2: with requests "a" then "b" arriving at a busy thread,
the queue is ["a", "b"] and the drain trace is ["a", "b"]. -/
theorem C2_witness :
    threadQueue (runWithQueueModel (fun s _ => s) "t" "b" 2
        (runWithQueueModel (fun s _ => s) "t" "a" 2 busyStore).1).1 "t" = ["a", "b"] ∧
    (drainLoop (fun s _ => s) "t" 2
        (runWithQueueModel (fun s _ => s) "t" "b" 2
          (runWithQueueModel (fun s _ => s) "t" "a" 2 busyStore).1).1).2 = ["a", "b"] :=
  C2_fifo_queue_and_drain busyStore "t" "a" "b" (fun s _ => s) 2 busyThread
    (by decide) (by decide) (fun _ _ => rfl) (by decide)

end OCS
